import Mathlib

/-!
A verification development for the Key-Paper Helper application
(`slr_screening_app.py`).  The Python functions `search_openalex`,
`reconstruct_abstract`, `process_results` and `calculate_author_centrality`
are shallowly embedded as executable definitions, together with the parts
of the Python runtime and library semantics they rely on: dictionary
lookups with defaults and `null` values, truthiness, stable sorting, and
the networkx graph operations the source calls.  Theorems about the
claims of the specification follow the definitions.
-/

namespace SLR

/-- A field of a JSON object coming from the API: it can be absent,
present but `null`, or present with a value of the expected shape.  These
are exactly the three cases that the Python `dict.get` distinguishes. -/
inductive Field (α : Type) where
  | absent
  | null
  | val (v : α)
deriving DecidableEq

/-- Python `d.get(k)`: `None` when the key is absent or maps to `null`. -/
def Field.get? {α : Type} : Field α → Option α
  | .absent => none
  | .null => none
  | .val v => some v

/-- Python `d.get(k, default)`: the default is used only when the key is
absent; an explicit `null` comes back as `None`. -/
def Field.getD {α : Type} : Field α → α → Option α
  | .absent, d => some d
  | .null, _ => none
  | .val v, _ => some v

/-- Python `x or d` for an optional string `x`: `None` and `""` are falsy. -/
def pyOrStr : Option String → String → String
  | none, d => d
  | some s, d => if s = "" then d else s

/-- Stable insertion into a list: the new element goes before the first
element `b` with `le a b`. -/
def insertBy {α : Type} (le : α → α → Bool) (a : α) : List α → List α
  | [] => [a]
  | b :: l => if le a b then a :: b :: l else b :: insertBy le a l

/-- Stable sort by insertion.  The Python `list.sort`/`sorted` are stable
sorts; for a total transitive comparison every stable sort returns the
same list, so this models them exactly. -/
def sortBy {α : Type} (le : α → α → Bool) : List α → List α
  | [] => []
  | a :: l => insertBy le a (sortBy le l)

/-! ## Abstract reconstruction (`reconstruct_abstract`) -/

/-- The `(position, word)` pairs flattened from an inverted index:
`for word, positions in inverted_index.items(): for pos in positions: ...`.
A Python dict iterates in insertion order, so the index is modeled as an
association list. -/
def word_positions_of (m : List (String × List Nat)) : List (Nat × String) :=
  m.flatMap (fun wp => wp.2.map (fun pos => (pos, wp.1)))

/-- Models `word_positions.sort(key=lambda x: x[0])`: stable sort by position. -/
def sorted_word_positions (m : List (String × List Nat)) : List (Nat × String) :=
  sortBy (fun a b => decide (a.1 ≤ b.1)) (word_positions_of m)

/-- Models `" ".join(ws)`: concatenation with single spaces. -/
def joinSpace : List String → String
  | [] => ""
  | [w] => w
  | w :: ws => w ++ " " ++ joinSpace ws

/-- Models `reconstruct_abstract(inverted_index)`: `None` and the empty dict are
falsy and give `""`; otherwise flatten, stable-sort by position and
space-join the words. -/
def reconstruct_abstract (inverted_index : Option (List (String × List Nat))) : String :=
  match inverted_index with
  | none => ""
  | some m =>
    if m.isEmpty then ""
    else joinSpace ((sorted_word_positions m).map (fun x => x.2))

/-- Splitting a string at every space character, Python `s.split(" ")`;
used to state the reconstruction round-trip property. -/
def splitSpaces (s : String) : List String :=
  (s.data.splitOn ' ').map String.mk

/-! ## Title classification (`process_results`, type heuristic) -/

/-- Python `str.lower`, character by character (the keywords are ASCII,
where `Char.toLower` agrees with Python). -/
def lower_str (s : String) : String := String.mk (s.data.map Char.toLower)

/-- Does `s` start with `pat` (on characters)? -/
def charsStartWith : List Char → List Char → Bool
  | _, [] => true
  | [], _ :: _ => false
  | c :: cs, p :: ps => c == p && charsStartWith cs ps

/-- Does `pat` occur somewhere in `s` (on characters)? -/
def charsContain (s pat : List Char) : Bool :=
  match s with
  | [] => pat.isEmpty
  | c :: rest => charsStartWith (c :: rest) pat || charsContain rest pat

/-- Python substring test `pat in s`. -/
def str_contains (s pat : String) : Bool := charsContain s.data pat.data

/-- Rule group 1: `"review" in t or "overview" in t or "state-of-the-art" in t`. -/
def hasReviewKw (t : String) : Bool :=
  str_contains t "review" || str_contains t "overview" || str_contains t "state-of-the-art"

/-- Rule group 2: `"framework" in t or "model" in t or "theory" in t`. -/
def hasFrameworkKw (t : String) : Bool :=
  str_contains t "framework" || str_contains t "model" || str_contains t "theory"

/-- Rule group 3: `"assess" in t or "evaluat" in t or "measur" in t or "effectiveness" in t`. -/
def hasEvalKw (t : String) : Bool :=
  str_contains t "assess" || str_contains t "evaluat" || str_contains t "measur" || str_contains t "effectiveness"

/-- The `if/elif/elif/else` classification chain over the lowered title. -/
def classify_title (title_lower : String) : String :=
  if hasReviewKw title_lower then "Review"
  else if hasFrameworkKw title_lower then "Framework"
  else if hasEvalKw title_lower then "Eval"
  else "Research"

/-- The classification applied to a plain title string, i.e.
`classify(title.lower())`. -/
def paper_type_of (title : String) : String := classify_title (lower_str title)

/-! ## Record normalization (`process_results`) -/

/-- The author object inside an authorship. -/
structure Author where
  display_name : Field String
deriving DecidableEq

/-- One entry of the `authorships` array. -/
structure Authorship where
  author : Field Author
deriving DecidableEq

/-- The `source` object inside `primary_location`. -/
structure Source where
  display_name : Field String
deriving DecidableEq

/-- The `primary_location` object. -/
structure Location where
  source : Field Source
deriving DecidableEq

/-- A raw OpenAlex work, restricted to the fields the program consumes. -/
structure RawWork where
  id : Field String
  doi : Field String
  title : Field String
  publication_year : Field Int
  cited_by_count : Field Int
  type : Field String
  authorships : Field (List Authorship)
  primary_location : Field Location
  abstract_inverted_index : Field (List (String × List Nat))
deriving DecidableEq

/-- One normalized row of the output table.  `Option` models Python
values that can be `None`. -/
structure PaperRecord where
  id : Option String
  title : Option String
  year : Option Int
  cited_by_count : Option Int
  type : String
  authors : String
  author_list : List String
  journal : Option String
  doi : Option String
  abstract : String
deriving DecidableEq

/-- One step of the author loop.  `authorship.get("author", {})` turns an
absent author into an empty dict whose `display_name` lookup is falsy, but
a `null` author becomes `None` and the following `.get` raises. -/
def authorStep (acc : List String) (a : Authorship) : Except String (List String) :=
  match a.author with
  | .null => .error "AttributeError: NoneType has no get"
  | .absent => .ok acc
  | .val au =>
    match au.display_name.get? with
    | none => .ok acc
    | some n => if n = "" then .ok acc else .ok (acc ++ [n])

/-- Models `for authorship in work.get("authorships", [])[:10]` with the
display-name filter.  A `null` authorships field becomes `None`, and
`None[:10]` raises. -/
def extract_author_names (w : RawWork) : Except String (List String) :=
  match w.authorships.getD [] with
  | none => .error "TypeError: NoneType is not subscriptable"
  | some lst => (lst.take 10).foldlM authorStep []

/-- Models `"; ".join(l)`. -/
def joinSemicolon : List String → String
  | [] => ""
  | [a] => a
  | a :: rest => a ++ "; " ++ joinSemicolon rest

/-- Models `work.get("primary_location", {}) or {}`: both an absent and a `null`
location collapse to the empty dict. -/
def locationOf (w : RawWork) : Location :=
  match w.primary_location with
  | .val l => l
  | _ => { source := Field.absent }

/-- Models `location.get("source", {}) or {}`. -/
def sourceOf (l : Location) : Source :=
  match l.source with
  | .val s => s
  | _ => { display_name := Field.absent }

/-- Normalization of one raw work into one row of the table. -/
def processWork (w : RawWork) : Except String PaperRecord :=
  match extract_author_names w with
  | .error e => .error e
  | .ok author_names =>
    let title_lower := lower_str (pyOrStr (w.title.getD "") "")
    .ok {
      id := w.id.getD "",
      title := w.title.getD "",
      year := w.publication_year.get?,
      cited_by_count := w.cited_by_count.getD 0,
      type := classify_title title_lower,
      authors := joinSemicolon (author_names.take 5),
      author_list := author_names,
      journal := (sourceOf (locationOf w)).display_name.getD "",
      doi := w.doi.getD "",
      abstract := reconstruct_abstract w.abstract_inverted_index.get?
    }

/-- Models `process_results(results)`: one row per raw work, in input order; the
resulting DataFrame is modeled as the list of rows.  An exception raised
while processing a record aborts the whole call. -/
def process_results (results : List RawWork) : Except String (List PaperRecord) :=
  results.mapM processWork

/-! ## Paginated fetch (`search_openalex`) -/

/-- The query parameters of one page request. -/
structure Params where
  search : Option String
  filter : String
  per_page : Nat
  cursor : String
  select : String
deriving DecidableEq

/-- The fixed `select` field list. -/
def select_fields : String :=
  "id,doi,title,publication_year,cited_by_count,type,authorships,primary_location,abstract_inverted_index"

/-- Models the f-string building the year filter, "publication_year:" followed by the dash-separated range. -/
def base_filter (year_from year_to : Int) : String :=
  "publication_year:" ++ toString year_from ++ "-" ++ toString year_to

/-- The request parameters for one page: the base dict, then the
title-only / abstract-only overrides that pop `search` and extend the
filter. -/
def buildParams (query : String) (year_from year_to : Int)
    (s_title s_abs s_kw : Bool) (cursor : String) : Params :=
  if s_title && !s_abs && !s_kw then
    { search := none, filter := base_filter year_from year_to ++ ",title.search:" ++ query,
      per_page := 200, cursor := cursor, select := select_fields }
  else if s_abs && !s_title && !s_kw then
    { search := none, filter := base_filter year_from year_to ++ ",abstract.search:" ++ query,
      per_page := 200, cursor := cursor, select := select_fields }
  else
    { search := some query, filter := base_filter year_from year_to,
      per_page := 200, cursor := cursor, select := select_fields }

/-- The observable outcome of one page request: `fail` is any exception
(network error, `raise_for_status` on a non-2xx status, malformed JSON);
`ok` carries `data["results"]`, `data["meta"]["count"]` (0 when missing)
and `data["meta"]["next_cursor"]` (`none` models `null`/missing). -/
inductive FetchResp (α : Type) where
  | fail
  | ok (results : List α) (count : Nat) (next_cursor : Option String)
deriving DecidableEq

/-- The `while len(all_results) < max_results` pagination loop, with the
transport as an oracle from request parameters to responses.  The element
type of the result records is abstract: the loop never inspects them.
The `time.sleep(0.1)` throttle has no effect on the returned value. -/
def fetchLoop {α : Type} (api : Params → FetchResp α) (query : String)
    (year_from year_to : Int) (s_title s_abs s_kw : Bool)
    (max_results : Nat) (acc : List α) (cursor : String) (total : Nat) :
    List α × Nat :=
  if _h : acc.length < max_results then
    match api (buildParams query year_from year_to s_title s_abs s_kw cursor) with
    | .fail => ([], 0)
    | .ok results count next_cursor =>
      match results with
      | [] => (acc.take max_results, count)
      | r :: rs =>
        match next_cursor with
        | none => ((acc ++ r :: rs).take max_results, count)
        | some c =>
          if c = "" then ((acc ++ r :: rs).take max_results, count)
          else fetchLoop api query year_from year_to s_title s_abs s_kw
            max_results (acc ++ r :: rs) c count
  else (acc.take max_results, total)
termination_by max_results - acc.length
decreasing_by
  simp only [List.length_append, List.length_cons]
  omega

/-- Models `search_openalex(query, year_from, year_to, ...)`: the paginated fetch
starting from the sentinel cursor `"*"`, an empty accumulator and
`total_count = 0`.  The `st.cache_data` cache does not change the value
computed for given arguments and responses. -/
def search_openalex {α : Type} (api : Params → FetchResp α) (query : String)
    (year_from year_to : Int) (s_title s_abs s_kw : Bool) (max_results : Nat) :
    List α × Nat :=
  fetchLoop api query year_from year_to s_title s_abs s_kw max_results [] "*" 0

/-! ## Co-authorship network (`calculate_author_centrality`) -/

/-- An undirected weighted graph as networkx builds it here: nodes in
insertion order, and one stored entry per undirected edge. -/
structure Graph where
  nodes : List String
  edges : List (String × String × Nat)
deriving DecidableEq

/-- The empty `nx.Graph()`. -/
def emptyGraph : Graph := { nodes := [], edges := [] }

/-- Models `G.add_node(a)` (the source guards it with `has_node`, which is also
how networkx behaves on an existing node). -/
def add_node (G : Graph) (a : String) : Graph :=
  if a ∈ G.nodes then G else { nodes := G.nodes ++ [a], edges := G.edges }

/-- Does a stored edge connect `a` and `b` (undirected)? -/
def edgeMatches (a b : String) (e : String × String × Nat) : Bool :=
  (e.1 == a && e.2.1 == b) || (e.1 == b && e.2.1 == a)

/-- Models `G.has_edge(a, b)`. -/
def has_edge (G : Graph) (a b : String) : Bool := G.edges.any (edgeMatches a b)

/-- Models the per-pair update: when the edge exists its stored weight is
incremented by 1, otherwise the edge is added with weight 1.
Both endpoints are already nodes at every call site (the row loop adds all
authors first). -/
def add_edge_weight (G : Graph) (a b : String) : Graph :=
  if has_edge G a b then
    { nodes := G.nodes,
      edges := G.edges.map (fun e => if edgeMatches a b e then (e.1, e.2.1, e.2.2 + 1) else e) }
  else
    { nodes := G.nodes, edges := G.edges ++ [(a, b, 1)] }

/-- Models `itertools.combinations(l, 2)`, in iteration order. -/
def pairsOf {α : Type} : List α → List (α × α)
  | [] => []
  | x :: xs => xs.map (fun y => (x, y)) ++ pairsOf xs

/-- One iteration of `for _, row in df.iterrows()`: take the first five
authors, add them as nodes, and when at least two remain add or increment
the edge of every unordered pair. -/
def process_row (G : Graph) (author_list : List String) : Graph :=
  if 2 ≤ (author_list.take 5).length then
    (pairsOf (author_list.take 5)).foldl (fun g p => add_edge_weight g p.1 p.2)
      ((author_list.take 5).foldl add_node G)
  else (author_list.take 5).foldl add_node G

/-- The whole graph-construction loop over the table rows (each row
contributes its `author_list`). -/
def build_graph (rows : List (List String)) : Graph :=
  rows.foldl process_row emptyGraph

/-- Models `nx.isolates`: a node of degree zero, i.e. with no incident stored
edge (a self-loop gives degree two, not zero). -/
def isolatedNode (G : Graph) (a : String) : Bool :=
  G.edges.all (fun e => e.1 != a && e.2.1 != a)

/-- Models `G.remove_nodes_from(list(nx.isolates(G)))`: the removed nodes have no
incident edges, so the edge list is unchanged. -/
def prune_isolates (G : Graph) : Graph :=
  { nodes := G.nodes.filter (fun a => !isolatedNode G a), edges := G.edges }

/-- The endpoint of an edge incident to `v` other than `v` itself. -/
def otherEnd (v : String) (e : String × String × Nat) : String :=
  if e.1 == v then e.2.1 else e.1

/-- networkx node degree: each incident edge counts once, a self-loop
twice. -/
def node_degree (G : Graph) (v : String) : Nat :=
  (G.edges.map (fun e =>
    if e.1 == v && e.2.1 == v then 2
    else if e.1 == v || e.2.1 == v then 1
    else 0)).sum

/-- Models `nx.degree_centrality(G)`: degree divided by `n - 1` (and the
degenerate `n ≤ 1` case returns 1 for every node, as networkx does).
Python float arithmetic is modeled exactly over `ℚ`. -/
def degree_centrality (G : Graph) : List (String × ℚ) :=
  if G.nodes.length ≤ 1 then G.nodes.map (fun v => (v, 1))
  else G.nodes.map (fun v => (v, (node_degree G v : ℚ) / ((G.nodes.length : ℚ) - 1)))

/-- Number of walks of length `d` between two nodes (adjacency-matrix
power).  At the minimal positive-count length this is exactly the number
of shortest paths. -/
def walkCount (G : Graph) : Nat → String → String → Nat
  | 0, a, b => if a == b then 1 else 0
  | d + 1, a, b =>
    (G.nodes.map (fun u => if has_edge G a u then walkCount G d u b else 0)).sum

/-- The graph distance: the least walk length with a positive walk count,
searched up to the number of nodes (a shortest path has fewer than `n`
edges); `none` when unreachable. -/
def distUpTo (G : Graph) (a b : String) : Option Nat :=
  (List.range (G.nodes.length + 1)).find? (fun d => decide (0 < walkCount G d a b))

/-- The pair dependency δ(s,t|v): the fraction of shortest `s`–`t` paths
passing through `v`; the number of those paths is `σ_sv · σ_vt` when
`dist s v + dist v t = dist s t` and 0 otherwise. -/
def pairDep (G : Graph) (s t v : String) : ℚ :=
  match distUpTo G s t, distUpTo G s v, distUpTo G v t with
  | some d, some a, some b =>
    if a + b = d then
      ((walkCount G a s v * walkCount G b v t : Nat) : ℚ) / ((walkCount G d s t : Nat) : ℚ)
    else 0
  | some _, some _, none => 0
  | some _, none, _ => 0
  | none, _, _ => 0

/-- The Brandes accumulation: the sum of δ(s,t|v) over ordered pairs of
distinct nodes different from `v`. -/
def betweennessRaw (G : Graph) (v : String) : ℚ :=
  (G.nodes.map (fun s =>
    if s == v then 0
    else (G.nodes.map (fun t => if t == v || t == s then 0 else pairDep G s t v)).sum)).sum

/-- Models `nx.betweenness_centrality(G)` (unweighted, `normalized=True`): for an
undirected graph the accumulated value is rescaled by `1/((n-1)(n-2))`
over ordered pairs; for `n ≤ 2` networkx applies no scale (the value is
0). -/
def betweenness_centrality (G : Graph) : List (String × ℚ) :=
  if G.nodes.length ≤ 2 then G.nodes.map (fun v => (v, betweennessRaw G v))
  else G.nodes.map (fun v =>
    (v, betweennessRaw G v / (((G.nodes.length - 1) * (G.nodes.length - 2) : Nat) : ℚ)))

/-- Models `sorted(d.items(), key=lambda x: x[1], reverse=True)[:5]`: stable
descending sort by score, then the first five. -/
def top5 (l : List (String × ℚ)) : List (String × ℚ) :=
  (sortBy (fun a b => decide (b.2 ≤ a.2)) l).take 5

/-- Models `calculate_author_centrality(df)`: the input is the `author_list`
column of the table.  Build the co-authorship graph, prune isolated
nodes, and below two remaining nodes report empty results. -/
def calculate_author_centrality (rows : List (List String)) :
    List (String × ℚ) × List (String × ℚ) :=
  if (prune_isolates (build_graph rows)).nodes.length < 2 then ([], [])
  else (top5 (degree_centrality (prune_isolates (build_graph rows))),
    top5 (betweenness_centrality (prune_isolates (build_graph rows))))

/-! ## Predicates used to state the claims -/

/-- The graph has no self-loops. -/
def NoSelfLoops (G : Graph) : Prop := ∀ e ∈ G.edges, e.1 ≠ e.2.1

/-- Two stored edges have the same unordered endpoint pair. -/
def sameEdgeKey (e f : String × String × Nat) : Prop :=
  (e.1 = f.1 ∧ e.2.1 = f.2.1) ∨ (e.1 = f.2.1 ∧ e.2.1 = f.1)

/-- Structural well-formedness of a graph as networkx maintains it:
distinct nodes, edge endpoints among the nodes, positive weights, and one
stored entry per undirected edge. -/
def GraphWF (G : Graph) : Prop :=
  G.nodes.Nodup ∧
  (∀ e ∈ G.edges, e.1 ∈ G.nodes ∧ e.2.1 ∈ G.nodes) ∧
  (∀ e ∈ G.edges, 1 ≤ e.2.2) ∧
  G.edges.Pairwise (fun e f => ¬ sameEdgeKey e f)

/-- A score list is sorted descending by score. -/
def sortedDescBy2 (l : List (String × ℚ)) : Prop := l.Pairwise (fun a b => b.2 ≤ a.2)

/-- Is the normalized citation count a non-negative integer? -/
def citedOkB (r : PaperRecord) : Bool :=
  match r.cited_by_count with
  | some n => decide (0 ≤ n)
  | none => false

/-- Is the normalized year null, or a 4-digit integer inside the queried
range? -/
def yearOkB (year_from year_to : Int) (r : PaperRecord) : Bool :=
  match r.year with
  | none => true
  | some y => decide (1000 ≤ y) && decide (y ≤ 9999) && decide (year_from ≤ y) && decide (y ≤ year_to)

/-- The claimed record invariant of C9, relative to the queried year
range: a non-negative integer citation count, and a year that is null or
a 4-digit integer within the range. -/
def recordInvariant (year_from year_to : Int) (r : PaperRecord) : Prop :=
  citedOkB r = true ∧ yearOkB year_from year_to r = true

/-- Raw-side well-formedness of `cited_by_count`: absent (defaulted to 0)
or a non-negative value. -/
def rawCountWF (w : RawWork) : Prop :=
  w.cited_by_count = Field.absent ∨ ∃ n, w.cited_by_count = Field.val n ∧ 0 ≤ n

/-- Raw-side well-formedness of `publication_year`: absent, null, or a
4-digit value inside the queried range. -/
def rawYearWF (year_from year_to : Int) (w : RawWork) : Prop :=
  w.publication_year = Field.absent ∨ w.publication_year = Field.null ∨
    ∃ y, w.publication_year = Field.val y ∧ 1000 ≤ y ∧ y ≤ 9999 ∧ year_from ≤ y ∧ y ≤ year_to

/-- A raw work none of whose authorship entries can make the author loop
raise: the `authorships` field is not `null`, and no kept entry has a
`null` author. -/
def authorsWF (w : RawWork) : Prop :=
  w.authorships ≠ Field.null ∧
  ∀ lst, w.authorships = Field.val lst → ∀ a ∈ lst.take 10, a.author ≠ Field.null

/-- The raw work used to refute C9 as stated: a present 1-digit
publication year and a `null` citation count. -/
def cexWorkC9 : RawWork :=
  { id := Field.absent, doi := Field.absent, title := Field.absent,
    publication_year := Field.val 5, cited_by_count := Field.null,
    type := Field.absent, authorships := Field.absent,
    primary_location := Field.absent, abstract_inverted_index := Field.absent }

/-- The raw work used to refute C10 as stated: a `null` authorships
field, on which the source raises. -/
def cexWorkC10 : RawWork :=
  { id := Field.absent, doi := Field.absent, title := Field.absent,
    publication_year := Field.absent, cited_by_count := Field.absent,
    type := Field.absent, authorships := Field.null,
    primary_location := Field.absent, abstract_inverted_index := Field.absent }

/-- The row the normalizer computes for `cexWorkC9`. -/
def cexRecordC9 : PaperRecord :=
  { id := some "", title := some "", year := some 5, cited_by_count := none,
    type := "Research", authors := "", author_list := [], journal := some "",
    doi := some "", abstract := "" }

/-- A raw work with `null` title, doi and citation count: the normalizer
stores `None` for them rather than the documented defaults. -/
def cexWorkC10b : RawWork :=
  { id := Field.absent, doi := Field.null, title := Field.null,
    publication_year := Field.absent, cited_by_count := Field.null,
    type := Field.absent, authorships := Field.absent,
    primary_location := Field.absent, abstract_inverted_index := Field.absent }

/-- The row the normalizer computes for `cexWorkC10b`. -/
def cexRecordC10b : PaperRecord :=
  { id := some "", title := none, year := none, cited_by_count := none,
    type := "Research", authors := "", author_list := [], journal := some "",
    doi := none, abstract := "" }

/-- A raw work with well-formed year and citation count and absent
optional fields. -/
def wfWork : RawWork :=
  { id := Field.val "W1", doi := Field.absent, title := Field.absent,
    publication_year := Field.val 2020, cited_by_count := Field.val 7,
    type := Field.absent, authorships := Field.absent,
    primary_location := Field.absent, abstract_inverted_index := Field.absent }

/-- The row the normalizer computes for `wfWork`. -/
def wfRecord : PaperRecord :=
  { id := some "W1", title := some "", year := some 2020, cited_by_count := some 7,
    type := "Research", authors := "", author_list := [], journal := some "",
    doi := some "", abstract := "" }

/-- A transport oracle whose first page succeeds with records `[1, 2]` and
a next cursor `"c2"`, and which fails on every other request. -/
def apiTwoPage : Params → FetchResp Nat :=
  fun p => if p.cursor = "*" then FetchResp.ok [1, 2] 5 (some "c2") else FetchResp.fail

/-- A transport oracle that always succeeds: the first page carries
records `[1, 2, 3]` and no next cursor; any other page is empty. -/
def apiOnePage : Params → FetchResp Nat :=
  fun p => if p.cursor = "*" then FetchResp.ok [1, 2, 3] 3 none else FetchResp.ok [] 3 none

/-! ## Step lemmas for the pagination loop -/

theorem fetchLoop_cap {α : Type} (api : Params → FetchResp α) (query : String)
    (year_from year_to : Int) (s_title s_abs s_kw : Bool)
    (max_results : Nat) (acc : List α) (cursor : String) (total : Nat)
    (hlen : ¬ acc.length < max_results) :
    fetchLoop api query year_from year_to s_title s_abs s_kw max_results acc cursor total =
      (acc.take max_results, total) := by
  rw [fetchLoop, dif_neg hlen]

theorem fetchLoop_fail {α : Type} (api : Params → FetchResp α) (query : String)
    (year_from year_to : Int) (s_title s_abs s_kw : Bool)
    (max_results : Nat) (acc : List α) (cursor : String) (total : Nat)
    (hlen : acc.length < max_results)
    (hfail : api (buildParams query year_from year_to s_title s_abs s_kw cursor) = FetchResp.fail) :
    fetchLoop api query year_from year_to s_title s_abs s_kw max_results acc cursor total =
      ([], 0) := by
  rw [fetchLoop, dif_pos hlen, hfail]

theorem fetchLoop_empty_page {α : Type} (api : Params → FetchResp α) (query : String)
    (year_from year_to : Int) (s_title s_abs s_kw : Bool)
    (max_results : Nat) (acc : List α) (cursor : String) (total count : Nat)
    (nc : Option String) (hlen : acc.length < max_results)
    (hok : api (buildParams query year_from year_to s_title s_abs s_kw cursor) =
      FetchResp.ok [] count nc) :
    fetchLoop api query year_from year_to s_title s_abs s_kw max_results acc cursor total =
      (acc.take max_results, count) := by
  rw [fetchLoop, dif_pos hlen, hok]

theorem fetchLoop_cursor_none {α : Type} (api : Params → FetchResp α) (query : String)
    (year_from year_to : Int) (s_title s_abs s_kw : Bool)
    (max_results : Nat) (acc : List α) (cursor : String) (total count : Nat)
    (r : α) (rs : List α) (hlen : acc.length < max_results)
    (hok : api (buildParams query year_from year_to s_title s_abs s_kw cursor) =
      FetchResp.ok (r :: rs) count none) :
    fetchLoop api query year_from year_to s_title s_abs s_kw max_results acc cursor total =
      ((acc ++ r :: rs).take max_results, count) := by
  rw [fetchLoop, dif_pos hlen, hok]

theorem fetchLoop_cursor_empty {α : Type} (api : Params → FetchResp α) (query : String)
    (year_from year_to : Int) (s_title s_abs s_kw : Bool)
    (max_results : Nat) (acc : List α) (cursor : String) (total count : Nat)
    (r : α) (rs : List α) (hlen : acc.length < max_results)
    (hok : api (buildParams query year_from year_to s_title s_abs s_kw cursor) =
      FetchResp.ok (r :: rs) count (some "")) :
    fetchLoop api query year_from year_to s_title s_abs s_kw max_results acc cursor total =
      ((acc ++ r :: rs).take max_results, count) := by
  rw [fetchLoop, dif_pos hlen, hok]
  simp

theorem fetchLoop_continue {α : Type} (api : Params → FetchResp α) (query : String)
    (year_from year_to : Int) (s_title s_abs s_kw : Bool)
    (max_results : Nat) (acc : List α) (cursor : String) (total count : Nat)
    (r : α) (rs : List α) (c : String) (hc : c ≠ "") (hlen : acc.length < max_results)
    (hok : api (buildParams query year_from year_to s_title s_abs s_kw cursor) =
      FetchResp.ok (r :: rs) count (some c)) :
    fetchLoop api query year_from year_to s_title s_abs s_kw max_results acc cursor total =
      fetchLoop api query year_from year_to s_title s_abs s_kw max_results
        (acc ++ r :: rs) c count := by
  conv_lhs => rw [fetchLoop]
  rw [dif_pos hlen, hok]
  simp [hc]

theorem fetchLoop_fst_length_le {α : Type} (api : Params → FetchResp α) (query : String)
    (year_from year_to : Int) (s_title s_abs s_kw : Bool) (max_results : Nat)
    (acc : List α) (cursor : String) (total : Nat) :
    (fetchLoop api query year_from year_to s_title s_abs s_kw max_results acc cursor total).1.length
      ≤ max_results := by
  induction acc, cursor, total using fetchLoop.induct api query year_from year_to s_title s_abs s_kw max_results with
  | case1 acc cursor total hlen hfail =>
    rw [fetchLoop_fail api query year_from year_to s_title s_abs s_kw max_results acc cursor total hlen hfail]
    exact Nat.zero_le _
  | case2 acc cursor total hlen count nc hok =>
    rw [fetchLoop_empty_page api query year_from year_to s_title s_abs s_kw max_results acc cursor total count nc hlen hok]
    exact List.length_take_le _ _
  | case3 acc cursor total hlen count r rs hok =>
    rw [fetchLoop_cursor_none api query year_from year_to s_title s_abs s_kw max_results acc cursor total count r rs hlen hok]
    exact List.length_take_le _ _
  | case4 acc cursor total hlen count r rs hok =>
    rw [fetchLoop_cursor_empty api query year_from year_to s_title s_abs s_kw max_results acc cursor total count r rs hlen hok]
    exact List.length_take_le _ _
  | case5 acc cursor total hlen count r rs c hc hok ih =>
    rw [fetchLoop_continue api query year_from year_to s_title s_abs s_kw max_results acc cursor total count r rs c hc hlen hok]
    exact ih
  | case6 acc cursor total hlen =>
    rw [fetchLoop_cap api query year_from year_to s_title s_abs s_kw max_results acc cursor total hlen]
    exact List.length_take_le _ _

theorem fetchLoop_no_fail_take {α : Type} (api : Params → FetchResp α) (query : String)
    (year_from year_to : Int) (s_title s_abs s_kw : Bool) (max_results : Nat)
    (acc : List α) (cursor : String) (total : Nat)
    (hnf : ∀ p, api p ≠ FetchResp.fail) :
    ∃ (l : List α) (t : Nat),
      fetchLoop api query year_from year_to s_title s_abs s_kw max_results acc cursor total =
        (l.take max_results, t) := by
  induction acc, cursor, total using fetchLoop.induct api query year_from year_to s_title s_abs s_kw max_results with
  | case1 acc cursor total hlen hfail => exact absurd hfail (hnf _)
  | case2 acc cursor total hlen count nc hok =>
    exact ⟨acc, count, fetchLoop_empty_page api query year_from year_to s_title s_abs s_kw max_results acc cursor total count nc hlen hok⟩
  | case3 acc cursor total hlen count r rs hok =>
    exact ⟨acc ++ r :: rs, count, fetchLoop_cursor_none api query year_from year_to s_title s_abs s_kw max_results acc cursor total count r rs hlen hok⟩
  | case4 acc cursor total hlen count r rs hok =>
    exact ⟨acc ++ r :: rs, count, fetchLoop_cursor_empty api query year_from year_to s_title s_abs s_kw max_results acc cursor total count r rs hlen hok⟩
  | case5 acc cursor total hlen count r rs c hc hok ih =>
    rw [fetchLoop_continue api query year_from year_to s_title s_abs s_kw max_results acc cursor total count r rs c hc hlen hok]
    exact ih
  | case6 acc cursor total hlen =>
    exact ⟨acc, total, fetchLoop_cap api query year_from year_to s_title s_abs s_kw max_results acc cursor total hlen⟩

/-- Claim C1: any page-request failure, at any point of the pagination
loop — in particular on the second page after a successful first page —
makes the whole fetch return `([], 0)`, discarding everything accumulated
so far. -/
theorem C1_failure_discards_all :
    (∀ (α : Type) (api : Params → FetchResp α) (query : String) (year_from year_to : Int)
        (s_title s_abs s_kw : Bool) (max_results : Nat) (acc : List α) (cursor : String)
        (total : Nat),
      acc.length < max_results →
      api (buildParams query year_from year_to s_title s_abs s_kw cursor) = FetchResp.fail →
      fetchLoop api query year_from year_to s_title s_abs s_kw max_results acc cursor total
        = ([], 0)) ∧
    (∀ (α : Type) (api : Params → FetchResp α) (query : String) (year_from year_to : Int)
        (s_title s_abs s_kw : Bool) (max_results : Nat) (r : α) (rs : List α)
        (count : Nat) (c : String),
      c ≠ "" →
      api (buildParams query year_from year_to s_title s_abs s_kw "*") =
        FetchResp.ok (r :: rs) count (some c) →
      (r :: rs).length < max_results →
      api (buildParams query year_from year_to s_title s_abs s_kw c) = FetchResp.fail →
      search_openalex api query year_from year_to s_title s_abs s_kw max_results = ([], 0)) := by
  constructor
  · intro α api query year_from year_to s_title s_abs s_kw max_results acc cursor total hlen hfail
    exact fetchLoop_fail api query year_from year_to s_title s_abs s_kw max_results acc cursor total hlen hfail
  · intro α api query year_from year_to s_title s_abs s_kw max_results r rs count c hc hok hlen hfail
    unfold search_openalex
    rw [fetchLoop_continue api query year_from year_to s_title s_abs s_kw max_results [] "*" 0 count r rs c hc (by simpa using Nat.lt_of_le_of_lt (Nat.zero_le _) hlen) hok]
    rw [List.nil_append]
    exact fetchLoop_fail api query year_from year_to s_title s_abs s_kw max_results (r :: rs) c count hlen hfail

theorem C1_witness :
    (apiTwoPage (buildParams "q" 2000 2024 true true false "*") =
        FetchResp.ok [1, 2] 5 (some "c2") ∧
      apiTwoPage (buildParams "q" 2000 2024 true true false "c2") = FetchResp.fail ∧
      ([1, 2] : List Nat).length < 500) ∧
    search_openalex apiTwoPage "q" 2000 2024 true true false 500 = ([], 0) :=
  ⟨⟨rfl, rfl, by decide⟩,
    C1_failure_discards_all.2 Nat apiTwoPage "q" 2000 2024 true true false 500 1 [2] 5 "c2"
      (by decide) rfl (by decide) rfl⟩

/-- Claim C2: the loop requests another page only while the accumulated
record count is below `max_results` and the previous response carried a
non-empty next cursor; a page with zero results stops it; every returned
record list is a `max_results`-truncation, hence of length at most
`max_results`. -/
theorem C2_pagination_policy :
    (∀ (α : Type) (api : Params → FetchResp α) (query : String) (year_from year_to : Int)
        (s_title s_abs s_kw : Bool) (max_results : Nat) (acc : List α) (cursor : String)
        (total : Nat),
      (fetchLoop api query year_from year_to s_title s_abs s_kw max_results acc cursor total).1.length
        ≤ max_results) ∧
    (∀ (α : Type) (api : Params → FetchResp α) (query : String) (year_from year_to : Int)
        (s_title s_abs s_kw : Bool) (max_results : Nat) (acc : List α) (cursor : String)
        (total : Nat),
      ¬ acc.length < max_results →
      fetchLoop api query year_from year_to s_title s_abs s_kw max_results acc cursor total =
        (acc.take max_results, total)) ∧
    (∀ (α : Type) (api : Params → FetchResp α) (query : String) (year_from year_to : Int)
        (s_title s_abs s_kw : Bool) (max_results : Nat) (acc : List α) (cursor : String)
        (total count : Nat) (nc : Option String),
      acc.length < max_results →
      api (buildParams query year_from year_to s_title s_abs s_kw cursor) =
        FetchResp.ok [] count nc →
      fetchLoop api query year_from year_to s_title s_abs s_kw max_results acc cursor total =
        (acc.take max_results, count)) ∧
    (∀ (α : Type) (api : Params → FetchResp α) (query : String) (year_from year_to : Int)
        (s_title s_abs s_kw : Bool) (max_results : Nat) (acc : List α) (cursor : String)
        (total count : Nat) (r : α) (rs : List α),
      acc.length < max_results →
      api (buildParams query year_from year_to s_title s_abs s_kw cursor) =
        FetchResp.ok (r :: rs) count none →
      fetchLoop api query year_from year_to s_title s_abs s_kw max_results acc cursor total =
        ((acc ++ r :: rs).take max_results, count)) ∧
    (∀ (α : Type) (api : Params → FetchResp α) (query : String) (year_from year_to : Int)
        (s_title s_abs s_kw : Bool) (max_results : Nat) (acc : List α) (cursor : String)
        (total count : Nat) (r : α) (rs : List α),
      acc.length < max_results →
      api (buildParams query year_from year_to s_title s_abs s_kw cursor) =
        FetchResp.ok (r :: rs) count (some "") →
      fetchLoop api query year_from year_to s_title s_abs s_kw max_results acc cursor total =
        ((acc ++ r :: rs).take max_results, count)) ∧
    (∀ (α : Type) (api : Params → FetchResp α) (query : String) (year_from year_to : Int)
        (s_title s_abs s_kw : Bool) (max_results : Nat) (acc : List α) (cursor : String)
        (total count : Nat) (r : α) (rs : List α) (c : String),
      c ≠ "" →
      acc.length < max_results →
      api (buildParams query year_from year_to s_title s_abs s_kw cursor) =
        FetchResp.ok (r :: rs) count (some c) →
      fetchLoop api query year_from year_to s_title s_abs s_kw max_results acc cursor total =
        fetchLoop api query year_from year_to s_title s_abs s_kw max_results
          (acc ++ r :: rs) c count) ∧
    (∀ (α : Type) (api : Params → FetchResp α) (query : String) (year_from year_to : Int)
        (s_title s_abs s_kw : Bool) (max_results : Nat),
      (∀ p, api p ≠ FetchResp.fail) →
      ∃ (l : List α) (t : Nat),
        search_openalex api query year_from year_to s_title s_abs s_kw max_results =
          (l.take max_results, t)) := by
  refine ⟨?_, ?_, ?_, ?_, ?_, ?_, ?_⟩
  · intro α api query year_from year_to s_title s_abs s_kw max_results acc cursor total
    exact fetchLoop_fst_length_le api query year_from year_to s_title s_abs s_kw max_results acc cursor total
  · intro α api query year_from year_to s_title s_abs s_kw max_results acc cursor total hlen
    exact fetchLoop_cap api query year_from year_to s_title s_abs s_kw max_results acc cursor total hlen
  · intro α api query year_from year_to s_title s_abs s_kw max_results acc cursor total count nc hlen hok
    exact fetchLoop_empty_page api query year_from year_to s_title s_abs s_kw max_results acc cursor total count nc hlen hok
  · intro α api query year_from year_to s_title s_abs s_kw max_results acc cursor total count r rs hlen hok
    exact fetchLoop_cursor_none api query year_from year_to s_title s_abs s_kw max_results acc cursor total count r rs hlen hok
  · intro α api query year_from year_to s_title s_abs s_kw max_results acc cursor total count r rs hlen hok
    exact fetchLoop_cursor_empty api query year_from year_to s_title s_abs s_kw max_results acc cursor total count r rs hlen hok
  · intro α api query year_from year_to s_title s_abs s_kw max_results acc cursor total count r rs c hc hlen hok
    exact fetchLoop_continue api query year_from year_to s_title s_abs s_kw max_results acc cursor total count r rs c hc hlen hok
  · intro α api query year_from year_to s_title s_abs s_kw max_results hnf
    exact fetchLoop_no_fail_take api query year_from year_to s_title s_abs s_kw max_results [] "*" 0 hnf

theorem C2_witness :
    ((∀ p, apiOnePage p ≠ FetchResp.fail) ∧
      apiOnePage (buildParams "q" 2000 2024 true true false "*") =
        FetchResp.ok [1, 2, 3] 3 none ∧ ([] : List Nat).length < 500) ∧
    fetchLoop apiOnePage "q" 2000 2024 true true false 500 [] "*" 0 = ([1, 2, 3].take 500, 3) ∧
    (∃ (l : List Nat) (t : Nat),
      search_openalex apiOnePage "q" 2000 2024 true true false 500 = (l.take 500, t)) :=
  ⟨⟨by intro p; unfold apiOnePage; split <;> simp, rfl, by decide⟩,
    by
      have h := C2_pagination_policy.2.2.2.1 Nat apiOnePage "q" 2000 2024 true true false 500
        [] "*" 0 3 1 [2, 3] (by decide) rfl
      simpa using h,
    C2_pagination_policy.2.2.2.2.2.2 Nat apiOnePage "q" 2000 2024 true true false 500
      (by intro p; unfold apiOnePage; split <;> simp)⟩

/-- Claim C3: exactly-title search pops the free-text parameter and uses a
title-scoped filter; exactly-abstract search pops it and uses an
abstract-scoped filter; every other flag combination keeps the free-text
search parameter and only the year filter. -/
theorem C3_scope_flags (query : String) (year_from year_to : Int) (cursor : String) :
    buildParams query year_from year_to true false false cursor =
      { search := none, filter := base_filter year_from year_to ++ ",title.search:" ++ query,
        per_page := 200, cursor := cursor, select := select_fields } ∧
    buildParams query year_from year_to false true false cursor =
      { search := none, filter := base_filter year_from year_to ++ ",abstract.search:" ++ query,
        per_page := 200, cursor := cursor, select := select_fields } ∧
    (∀ s_title s_abs s_kw : Bool,
      (s_title && !s_abs && !s_kw) = false → (s_abs && !s_title && !s_kw) = false →
      buildParams query year_from year_to s_title s_abs s_kw cursor =
        { search := some query, filter := base_filter year_from year_to,
          per_page := 200, cursor := cursor, select := select_fields }) := by
  refine ⟨rfl, rfl, ?_⟩
  intro s_title s_abs s_kw h1 h2
  cases s_title <;> cases s_abs <;> cases s_kw <;> simp_all [buildParams]

theorem C3_witness :
    ((true && !true && !false) = false ∧ (true && !true && !false) = false) ∧
    buildParams "q" 2000 2024 true true false "*" =
      { search := some "q", filter := base_filter 2000 2024,
        per_page := 200, cursor := "*", select := select_fields } :=
  ⟨⟨by decide, by decide⟩,
    (C3_scope_flags "q" 2000 2024 "*").2.2 true true false (by decide) (by decide)⟩

/-! ## Helper lemmas about the stable sort -/

theorem insertBy_perm {α : Type} (le : α → α → Bool) (a : α) (l : List α) :
    (insertBy le a l).Perm (a :: l) := by
  induction l with
  | nil => exact List.Perm.refl _
  | cons b l ih =>
    simp only [insertBy]
    split
    · exact List.Perm.refl _
    · exact (ih.cons b).trans (List.Perm.swap a b l)

theorem sortBy_perm {α : Type} (le : α → α → Bool) (l : List α) :
    (sortBy le l).Perm l := by
  induction l with
  | nil => exact List.Perm.refl _
  | cons a l ih => exact (insertBy_perm le a (sortBy le l)).trans (ih.cons a)

theorem insertBy_pairwise {α : Type} (le : α → α → Bool)
    (htot : ∀ x y, le x y = true ∨ le y x = true)
    (htrans : ∀ x y z, le x y = true → le y z = true → le x z = true)
    (a : α) (l : List α) (hl : l.Pairwise (fun x y => le x y = true)) :
    (insertBy le a l).Pairwise (fun x y => le x y = true) := by
  induction l with
  | nil => simp [insertBy]
  | cons b l ih =>
    rw [List.pairwise_cons] at hl
    obtain ⟨hb, hl'⟩ := hl
    simp only [insertBy]
    split
    case isTrue h =>
      refine List.pairwise_cons.mpr ⟨?_, List.pairwise_cons.mpr ⟨hb, hl'⟩⟩
      intro x hx
      rcases List.mem_cons.mp hx with rfl | hx
      · exact h
      · exact htrans a b x h (hb x hx)
    case isFalse h =>
      have hba : le b a = true := (htot a b).resolve_left h
      refine List.pairwise_cons.mpr ⟨?_, ih hl'⟩
      intro x hx
      have hx' : x ∈ a :: l := (insertBy_perm le a l).subset hx
      rcases List.mem_cons.mp hx' with rfl | hx'
      · exact hba
      · exact hb x hx'

theorem sortBy_pairwise {α : Type} (le : α → α → Bool)
    (htot : ∀ x y, le x y = true ∨ le y x = true)
    (htrans : ∀ x y z, le x y = true → le y z = true → le x z = true)
    (l : List α) : (sortBy le l).Pairwise (fun x y => le x y = true) := by
  induction l with
  | nil => simp [sortBy]
  | cons a l ih => exact insertBy_pairwise le htot htrans a (sortBy le l) ih

/-! ## Helper lemmas about space-joining and space-splitting -/

theorem joinSpace_data : ∀ ws : List String,
    (joinSpace ws).data = List.intercalate [' '] (ws.map String.data)
  | [] => by simp [joinSpace, List.intercalate]
  | [w] => by simp [joinSpace, List.intercalate]
  | w :: x :: ws => by
    have ih := joinSpace_data (x :: ws)
    simp only [joinSpace, String.data_append, ih, List.map_cons, List.intercalate,
      List.intersperse, List.flatten]
    simp [String.data]

theorem splitSpaces_joinSpace (ws : List String) (hne : ws ≠ [])
    (hsp : ∀ w ∈ ws, ¬ ' ' ∈ w.data) :
    splitSpaces (joinSpace ws) = ws := by
  unfold splitSpaces
  rw [joinSpace_data]
  rw [List.splitOn_intercalate (ws.map String.data) ' '
    (by intro l hl; obtain ⟨w, hw, rfl⟩ := List.mem_map.mp hl; exact hsp w hw)
    (by simpa using hne)]
  rw [List.map_map]
  exact List.map_id'' (fun s => rfl) ws

/-- Claim C4 (amended): for a mapping with at least one `(word, position)`
entry and no word containing a space, splitting the reconstructed abstract
on spaces yields exactly the words of the entries stable-sorted by
ascending position, whose multiset equals the multiset of entry words. -/
theorem C4_reconstruction_roundtrip (m : List (String × List Nat))
    (hne : word_positions_of m ≠ [])
    (hsp : ∀ p ∈ word_positions_of m, ¬ ' ' ∈ p.2.data) :
    splitSpaces (reconstruct_abstract (some m)) = (sorted_word_positions m).map (fun x => x.2) ∧
    (sorted_word_positions m).Pairwise (fun a b => a.1 ≤ b.1) ∧
    ((sorted_word_positions m).map (fun x => x.2)).Perm
      ((word_positions_of m).map (fun x => x.2)) := by
  have hperm : (sorted_word_positions m).Perm (word_positions_of m) :=
    sortBy_perm (fun a b : Nat × String => decide (a.1 ≤ b.1)) (word_positions_of m)
  have hsorted : (sorted_word_positions m).Pairwise (fun a b => a.1 ≤ b.1) := by
    have h := sortBy_pairwise (fun a b : Nat × String => decide (a.1 ≤ b.1))
      (by intro x y; rcases Nat.le_total x.1 y.1 with h | h
          · exact Or.inl (decide_eq_true h)
          · exact Or.inr (decide_eq_true h))
      (by intro x y z hxy hyz
          exact decide_eq_true (Nat.le_trans (of_decide_eq_true hxy) (of_decide_eq_true hyz)))
      (word_positions_of m)
    exact h.imp (fun hd => of_decide_eq_true hd)
  have hmne : m ≠ [] := by
    intro he
    exact hne (by simp [he, word_positions_of])
  have hrec : reconstruct_abstract (some m) =
      joinSpace ((sorted_word_positions m).map (fun x => x.2)) := by
    simp [reconstruct_abstract, List.isEmpty_iff, hmne]
  refine ⟨?_, hsorted, hperm.map (fun x => x.2)⟩
  rw [hrec]
  apply splitSpaces_joinSpace
  · intro h
    have := hperm.length_eq
    rw [List.map_eq_nil_iff] at h
    rw [h] at this
    exact hne (List.eq_nil_of_length_eq_zero this.symm)
  · intro w hw
    obtain ⟨p, hp, rfl⟩ := List.mem_map.mp hw
    exact hsp p (hperm.subset hp)

/-- Claim C4, as stated for arbitrary mappings, is false: with a word
containing a space the re-split word sequence is not a permutation of the
entry words. -/
theorem C4_counterexample :
    ¬ (splitSpaces (reconstruct_abstract (some [("a b", [0])]))).Perm
      ((word_positions_of [("a b", [0])]).map (fun x => x.2)) := by decide

theorem C4_witness :
    (word_positions_of [("hello", [0, 2]), ("world", [1])] ≠ [] ∧
      ∀ p ∈ word_positions_of [("hello", [0, 2]), ("world", [1])], ¬ ' ' ∈ p.2.data) ∧
    splitSpaces (reconstruct_abstract (some [("hello", [0, 2]), ("world", [1])])) =
      (sorted_word_positions [("hello", [0, 2]), ("world", [1])]).map (fun x => x.2) :=
  ⟨⟨by decide, by decide⟩,
    (C4_reconstruction_roundtrip [("hello", [0, 2]), ("world", [1])] (by decide) (by decide)).1⟩

/-- Claim C5: classification is a case-insensitive substring test over the
title only, the three keyword groups are checked in strict priority order
with the first match winning, and in particular
"A Systematic Review and Framework" is Review, not Framework. -/
theorem C5_classification_priority (title : String) :
    (hasReviewKw (lower_str title) = true → paper_type_of title = "Review") ∧
    (hasReviewKw (lower_str title) = false → hasFrameworkKw (lower_str title) = true →
      paper_type_of title = "Framework") ∧
    (hasReviewKw (lower_str title) = false → hasFrameworkKw (lower_str title) = false →
      hasEvalKw (lower_str title) = true → paper_type_of title = "Eval") ∧
    (hasReviewKw (lower_str title) = false → hasFrameworkKw (lower_str title) = false →
      hasEvalKw (lower_str title) = false → paper_type_of title = "Research") ∧
    (∀ (w : RawWork) (r : PaperRecord), processWork w = Except.ok r →
      r.type = paper_type_of (pyOrStr (w.title.getD "") "")) ∧
    paper_type_of "A Systematic Review and Framework" = "Review" ∧
    hasFrameworkKw (lower_str "A Systematic Review and Framework") = true := by
  refine ⟨?_, ?_, ?_, ?_, ?_, by decide, by decide⟩
  · intro h; simp [paper_type_of, classify_title, h]
  · intro h1 h2; simp [paper_type_of, classify_title, h1, h2]
  · intro h1 h2 h3; simp [paper_type_of, classify_title, h1, h2, h3]
  · intro h1 h2 h3; simp [paper_type_of, classify_title, h1, h2, h3]
  · intro w r hok
    unfold processWork at hok
    cases he : extract_author_names w with
    | error e => rw [he] at hok; exact absurd hok (by simp)
    | ok names =>
      rw [he] at hok
      simp only [Except.ok.injEq] at hok
      rw [← hok]
      rfl

theorem C5_witness :
    (hasReviewKw (lower_str "model based approach") = false ∧
      hasFrameworkKw (lower_str "model based approach") = true) ∧
    paper_type_of "model based approach" = "Framework" :=
  ⟨⟨by decide, by decide⟩,
    (C5_classification_priority "model based approach").2.1 (by decide) (by decide)⟩

/-! ## Helper lemmas about graph construction -/

theorem foldl_invariant {α β : Type} (P : β → Prop) (f : β → α → β) (l : List α) (b : β)
    (hb : P b) (hf : ∀ x ∈ l, ∀ y, P y → P (f y x)) : P (l.foldl f b) := by
  induction l generalizing b with
  | nil => exact hb
  | cons a l ih =>
    exact ih (f b a) (hf a (by simp) b hb) (fun x hx y hy => hf x (by simp [hx]) y hy)

theorem add_node_edges (G : Graph) (a : String) : (add_node G a).edges = G.edges := by
  unfold add_node
  split <;> rfl

theorem foldl_add_node_edges : ∀ (l : List String) (G : Graph),
    (l.foldl add_node G).edges = G.edges
  | [], _ => rfl
  | a :: l, G => by
    rw [List.foldl_cons, foldl_add_node_edges l (add_node G a), add_node_edges]

theorem pairsOf_mem {α : Type} : ∀ (l : List α) (p : α × α), p ∈ pairsOf l →
    p.1 ∈ l ∧ p.2 ∈ l
  | [], p, hp => by simp [pairsOf] at hp
  | x :: xs, p, hp => by
    simp only [pairsOf, List.mem_append, List.mem_map] at hp
    rcases hp with ⟨y, hy, rfl⟩ | hp
    · exact ⟨by simp, by simp [hy]⟩
    · obtain ⟨h1, h2⟩ := pairsOf_mem xs p hp
      exact ⟨by simp [h1], by simp [h2]⟩

theorem pairsOf_ne_of_nodup {α : Type} : ∀ (l : List α), l.Nodup →
    ∀ p ∈ pairsOf l, p.1 ≠ p.2
  | [], _, p, hp => by simp [pairsOf] at hp
  | x :: xs, h, p, hp => by
    rw [List.nodup_cons] at h
    simp only [pairsOf, List.mem_append, List.mem_map] at hp
    rcases hp with ⟨y, hy, rfl⟩ | hp
    · intro he
      have he' : x = y := he
      subst he'
      exact h.1 hy
    · exact pairsOf_ne_of_nodup xs h.2 p hp

theorem add_edge_weight_no_selfloops (G : Graph) (a b : String) (hab : a ≠ b)
    (hG : NoSelfLoops G) : NoSelfLoops (add_edge_weight G a b) := by
  unfold add_edge_weight
  split
  · intro e he
    simp only [List.mem_map] at he
    obtain ⟨f, hf, rfl⟩ := he
    have := hG f hf
    split <;> simpa using this
  · intro e he
    rcases List.mem_append.mp he with h | h
    · exact hG e h
    · simp only [List.mem_singleton] at h
      subst h
      simpa using hab

theorem add_edge_weight_weights (G : Graph) (a b : String)
    (hG : ∀ e ∈ G.edges, 1 ≤ e.2.2) : ∀ e ∈ (add_edge_weight G a b).edges, 1 ≤ e.2.2 := by
  unfold add_edge_weight
  split
  · intro e he
    simp only [List.mem_map] at he
    obtain ⟨f, hf, rfl⟩ := he
    have := hG f hf
    split
    · simp only
      omega
    · exact this
  · intro e he
    rcases List.mem_append.mp he with h | h
    · exact hG e h
    · simp only [List.mem_singleton] at h
      subst h
      simp

theorem process_row_no_selfloops (G : Graph) (author_list : List String)
    (hdup : (author_list.take 5).Nodup) (hG : NoSelfLoops G) :
    NoSelfLoops (process_row G author_list) := by
  have hG1 : NoSelfLoops ((author_list.take 5).foldl add_node G) := by
    unfold NoSelfLoops
    rw [foldl_add_node_edges]
    exact hG
  unfold process_row
  split
  · apply foldl_invariant NoSelfLoops _ _ _ hG1
    intro p hp g hg
    exact add_edge_weight_no_selfloops g p.1 p.2 (pairsOf_ne_of_nodup _ hdup p hp) hg
  · exact hG1

theorem process_row_weights (G : Graph) (author_list : List String)
    (hG : ∀ e ∈ G.edges, 1 ≤ e.2.2) :
    ∀ e ∈ (process_row G author_list).edges, 1 ≤ e.2.2 := by
  have hG1 : ∀ e ∈ ((author_list.take 5).foldl add_node G).edges, 1 ≤ e.2.2 := by
    rw [foldl_add_node_edges]
    exact hG
  unfold process_row
  split
  · apply foldl_invariant (fun g : Graph => ∀ e ∈ g.edges, 1 ≤ e.2.2) _ _ _ hG1
    intro p _ g hg
    exact add_edge_weight_weights g p.1 p.2 hg
  · exact hG1

theorem build_graph_no_selfloops (rows : List (List String))
    (hdup : ∀ r ∈ rows, (r.take 5).Nodup) : NoSelfLoops (build_graph rows) := by
  unfold build_graph
  apply foldl_invariant NoSelfLoops _ _ _ _
  · intro r hr g hg
    exact process_row_no_selfloops g r (hdup r hr) hg
  · intro e he
    simp [emptyGraph] at he

theorem build_graph_weights (rows : List (List String)) :
    ∀ e ∈ (build_graph rows).edges, 1 ≤ e.2.2 := by
  unfold build_graph
  apply foldl_invariant (fun g : Graph => ∀ e ∈ g.edges, 1 ≤ e.2.2) _ _ _ _
  · intro r _ g hg
    exact process_row_weights g r hg
  · intro e he
    simp [emptyGraph] at he

/-- Claim C6: a record with at most one kept author contributes no edges;
a record `[A, B, C]` contributes exactly the three unordered pairs with
weight 1, and a repeated identical record raises all three weights to 2. -/
theorem C6_coauthor_edges :
    (∀ (G : Graph) (author_list : List String), author_list.length ≤ 1 →
      (process_row G author_list).edges = G.edges) ∧
    build_graph [["A", "B", "C"]] =
      { nodes := ["A", "B", "C"], edges := [("A", "B", 1), ("A", "C", 1), ("B", "C", 1)] } ∧
    build_graph [["A", "B", "C"], ["A", "B", "C"]] =
      { nodes := ["A", "B", "C"], edges := [("A", "B", 2), ("A", "C", 2), ("B", "C", 2)] } := by
  refine ⟨?_, by decide, by decide⟩
  intro G l hl
  have h2 : ¬ 2 ≤ (l.take 5).length := by
    rw [List.length_take]
    omega
  simp only [process_row, if_neg h2]
  exact foldl_add_node_edges (l.take 5) G

theorem C6_witness :
    (["solo"].length ≤ 1) ∧ (process_row emptyGraph ["solo"]).edges = emptyGraph.edges :=
  ⟨by decide, C6_coauthor_edges.1 emptyGraph ["solo"] (by decide)⟩

/-- Claim C7 (amended): when no record repeats an author name among its
first five authors, the built graph has no self-loops; every edge weight
is at least 1 for every input; both facts survive isolated-node pruning.
(With a repeated name the source does create a self-loop, see the
counterexample.) -/
theorem C7_graph_invariants (rows : List (List String))
    (hdup : ∀ r ∈ rows, (r.take 5).Nodup) :
    NoSelfLoops (build_graph rows) ∧
    (∀ e ∈ (build_graph rows).edges, 1 ≤ e.2.2) ∧
    NoSelfLoops (prune_isolates (build_graph rows)) ∧
    (∀ e ∈ (prune_isolates (build_graph rows)).edges, 1 ≤ e.2.2) := by
  have h1 := build_graph_no_selfloops rows hdup
  have h2 := build_graph_weights rows
  exact ⟨h1, h2, h1, h2⟩

/-- Claim C7 as stated is false: a record whose kept author list repeats a
name produces a self-loop. -/
theorem C7_counterexample : ¬ NoSelfLoops (build_graph [["A", "A"]]) := by
  unfold NoSelfLoops
  decide

theorem C7_witness :
    (∀ r ∈ [["A", "B", "C"]], (r.take 5).Nodup) ∧
    NoSelfLoops (build_graph [["A", "B", "C"]]) :=
  ⟨by decide, (C7_graph_invariants [["A", "B", "C"]] (by decide)).1⟩

/-! ## The normalizer: success and defaults -/

theorem foldlM_authorStep_ok : ∀ (l : List Authorship), (∀ a ∈ l, a.author ≠ Field.null) →
    ∀ acc, ∃ names, l.foldlM authorStep acc = Except.ok names
  | [], _, acc => ⟨acc, rfl⟩
  | a :: l, h, acc => by
    have ha : a.author ≠ Field.null := h a (by simp)
    have hl : ∀ x ∈ l, x.author ≠ Field.null := fun x hx => h x (by simp [hx])
    have hstep : ∃ acc2, authorStep acc a = Except.ok acc2 := by
      unfold authorStep
      cases hau : a.author with
      | null => exact absurd hau ha
      | absent => exact ⟨acc, rfl⟩
      | val au =>
        dsimp only
        cases au.display_name.get? with
        | none => exact ⟨acc, rfl⟩
        | some n =>
          dsimp only
          by_cases hne : n = ""
          · rw [if_pos hne]
            exact ⟨acc, rfl⟩
          · rw [if_neg hne]
            exact ⟨acc ++ [n], rfl⟩
    obtain ⟨acc2, hacc⟩ := hstep
    obtain ⟨names, hnm⟩ := foldlM_authorStep_ok l hl acc2
    refine ⟨names, ?_⟩
    rw [List.foldlM_cons, hacc]
    exact hnm

theorem extract_author_names_ok (w : RawWork) (hw : authorsWF w) :
    ∃ names, extract_author_names w = Except.ok names := by
  unfold extract_author_names
  cases ha : w.authorships with
  | null => exact absurd ha hw.1
  | absent => exact ⟨[], rfl⟩
  | val lst =>
    simp only [Field.getD]
    exact foldlM_authorStep_ok (lst.take 10) (hw.2 lst ha) []

theorem processWork_ok (w : RawWork) (hw : authorsWF w) :
    ∃ r, processWork w = Except.ok r := by
  obtain ⟨names, hn⟩ := extract_author_names_ok w hw
  unfold processWork
  rw [hn]
  exact ⟨_, rfl⟩

theorem mapM_processWork_ok : ∀ ws : List RawWork,
    (∀ w ∈ ws, ∃ r, processWork w = Except.ok r) →
    ∃ rows, ws.mapM processWork = Except.ok rows ∧
      List.Forall₂ (fun w r => processWork w = Except.ok r) ws rows
  | [], _ => ⟨[], rfl, List.Forall₂.nil⟩
  | w :: ws, h => by
    obtain ⟨r, hr⟩ := h w (by simp)
    obtain ⟨rows, hrows, hall⟩ := mapM_processWork_ok ws (fun x hx => h x (by simp [hx]))
    refine ⟨r :: rows, ?_, List.Forall₂.cons hr hall⟩
    rw [List.mapM_cons, hr, hrows]
    rfl

/-- Claim C9 as stated is false: the normalizer does not validate; a
1-digit present year is passed through, and a `null` citation count
becomes `None`. -/
theorem C9_counterexample :
    processWork cexWorkC9 = Except.ok cexRecordC9 ∧
    ¬ recordInvariant 2015 2025 cexRecordC9 :=
  ⟨rfl, by unfold recordInvariant; decide⟩

/-- Claim C9 (amended): the normalizer preserves rather than enforces the
invariant: whenever the raw `cited_by_count` is absent or a non-negative
value and the raw `publication_year` is absent, null, or a 4-digit value
inside the queried range, the normalized record satisfies the invariant. -/
theorem C9_invariant_preservation (w : RawWork) (year_from year_to : Int) (r : PaperRecord)
    (hok : processWork w = Except.ok r)
    (hc : rawCountWF w) (hy : rawYearWF year_from year_to w) :
    recordInvariant year_from year_to r := by
  unfold processWork at hok
  cases he : extract_author_names w with
  | error e =>
    rw [he] at hok
    exact absurd hok (by simp)
  | ok names =>
    rw [he] at hok
    simp only [Except.ok.injEq] at hok
    subst hok
    constructor
    · rcases hc with h | ⟨n, hn, hpos⟩
      · simp [citedOkB, h, Field.getD]
      · simp [citedOkB, hn, Field.getD, hpos]
    · rcases hy with h | h | ⟨y, hy', h1, h2, h3, h4⟩
      · simp [yearOkB, h, Field.get?]
      · simp [yearOkB, h, Field.get?]
      · simp [yearOkB, hy', Field.get?, h1, h2, h3, h4]

theorem C9_witness :
    (processWork wfWork = Except.ok wfRecord ∧ rawCountWF wfWork ∧
      rawYearWF 2015 2025 wfWork) ∧
    recordInvariant 2015 2025 wfRecord :=
  ⟨⟨rfl, Or.inr ⟨7, rfl, by decide⟩,
      Or.inr (Or.inr ⟨2020, rfl, by decide, by decide, by decide, by decide⟩)⟩,
    C9_invariant_preservation wfWork 2015 2025 wfRecord rfl
      (Or.inr ⟨7, rfl, by decide⟩)
      (Or.inr (Or.inr ⟨2020, rfl, by decide, by decide, by decide, by decide⟩))⟩

/-- Claim C10 as stated is false: a `null` authorships field makes
normalization raise instead of succeeding, and `null` title, doi and
citation count propagate as `None` instead of the claimed defaults. -/
theorem C10_counterexample :
    process_results [cexWorkC10] = Except.error "TypeError: NoneType is not subscriptable" ∧
    processWork cexWorkC10b = Except.ok cexRecordC10b ∧ cexRecordC10b.title = none ∧
    cexRecordC10b.doi = none ∧ cexRecordC10b.cited_by_count = none :=
  ⟨rfl, rfl, rfl, rfl, rfl⟩

/-- Claim C10 (amended): for inputs whose `authorships` field is not
`null` (and with no `null` author inside the kept authorships),
normalization succeeds with exactly one row per record in input order;
absent fields get the documented defaults, and an absent-or-null title
classifies as Research; but `null` title/doi/cited_by_count values
propagate as `None` (see the counterexample). -/
theorem C10_normalization_defaults :
    (∀ ws : List RawWork, (∀ w ∈ ws, authorsWF w) →
      ∃ rows, process_results ws = Except.ok rows ∧ rows.length = ws.length ∧
        List.Forall₂ (fun w r => processWork w = Except.ok r) ws rows) ∧
    (∀ w : RawWork, authorsWF w → ∃ r, processWork w = Except.ok r ∧
      (w.title = Field.absent → r.title = some "") ∧
      (w.doi = Field.absent → r.doi = some "") ∧
      (w.cited_by_count = Field.absent → r.cited_by_count = some 0) ∧
      (w.publication_year = Field.absent → r.year = none) ∧
      ((w.primary_location = Field.absent ∨ w.primary_location = Field.null) →
        r.journal = some "") ∧
      (∀ loc, w.primary_location = Field.val loc →
        (loc.source = Field.absent ∨ loc.source = Field.null) → r.journal = some "") ∧
      ((w.title = Field.absent ∨ w.title = Field.null) → r.type = "Research")) := by
  constructor
  · intro ws hws
    obtain ⟨rows, hrows, hall⟩ :=
      mapM_processWork_ok ws (fun w hw => processWork_ok w (hws w hw))
    exact ⟨rows, hrows, hall.length_eq.symm, hall⟩
  · intro w hw
    obtain ⟨names, hn⟩ := extract_author_names_ok w hw
    have hpw : processWork w = Except.ok
        { id := w.id.getD "", title := w.title.getD "",
          year := w.publication_year.get?, cited_by_count := w.cited_by_count.getD 0,
          type := classify_title (lower_str (pyOrStr (w.title.getD "") "")),
          authors := joinSemicolon (names.take 5), author_list := names,
          journal := (sourceOf (locationOf w)).display_name.getD "",
          doi := w.doi.getD "", abstract := reconstruct_abstract w.abstract_inverted_index.get? } := by
      unfold processWork
      rw [hn]
    refine ⟨_, hpw, ?_, ?_, ?_, ?_, ?_, ?_, ?_⟩
    · intro h
      simp [h, Field.getD]
    · intro h
      simp [h, Field.getD]
    · intro h
      simp [h, Field.getD]
    · intro h
      simp [h, Field.get?]
    · intro h
      rcases h with h | h <;>
        simp [locationOf, sourceOf, h, Field.getD]
    · intro loc hloc hsrc
      rcases hsrc with h | h <;>
        simp [locationOf, sourceOf, hloc, h, Field.getD]
    · intro h
      rcases h with h | h <;>
      · simp only [h, Field.getD, pyOrStr]
        decide

/-! ## Well-formedness of built graphs -/

theorem graphWF_empty : GraphWF emptyGraph := by
  refine ⟨List.Pairwise.nil, ?_, ?_, List.Pairwise.nil⟩ <;> intro e he <;> simp [emptyGraph] at he

theorem add_node_nodes_mono (G : Graph) (a x : String) (hx : x ∈ G.nodes) :
    x ∈ (add_node G a).nodes := by
  unfold add_node
  split
  · exact hx
  · simp [hx]

theorem mem_add_node_self (G : Graph) (a : String) : a ∈ (add_node G a).nodes := by
  unfold add_node
  split
  case isTrue h => exact h
  case isFalse h => simp

theorem foldl_add_node_nodes_mono : ∀ (l : List String) (G : Graph) (x : String),
    x ∈ G.nodes → x ∈ (l.foldl add_node G).nodes
  | [], _, _, hx => hx
  | a :: l, G, x, hx =>
    foldl_add_node_nodes_mono l (add_node G a) x (add_node_nodes_mono G a x hx)

theorem foldl_add_node_mem : ∀ (l : List String) (G : Graph) (x : String), x ∈ l →
    x ∈ (l.foldl add_node G).nodes
  | [], _, x, hx => by simp at hx
  | a :: l, G, x, hx => by
    rcases List.mem_cons.mp hx with rfl | hx
    · exact foldl_add_node_nodes_mono l (add_node G x) x (mem_add_node_self G x)
    · exact foldl_add_node_mem l (add_node G a) x hx

theorem add_node_wf (G : Graph) (a : String) (h : GraphWF G) : GraphWF (add_node G a) := by
  obtain ⟨h1, h2, h3, h4⟩ := h
  unfold add_node
  split
  case isTrue => exact ⟨h1, h2, h3, h4⟩
  case isFalse hna =>
    refine ⟨?_, ?_, h3, h4⟩
    · simp [List.nodup_append, h1, hna]
    · intro e he
      obtain ⟨he1, he2⟩ := h2 e he
      exact ⟨by simp [he1], by simp [he2]⟩

theorem foldl_add_node_wf (l : List String) (G : Graph) (h : GraphWF G) :
    GraphWF (l.foldl add_node G) :=
  foldl_invariant GraphWF add_node l G h (fun x _ g hg => add_node_wf g x hg)

theorem edgeMatches_iff (a b : String) (e : String × String × Nat) (w : Nat) :
    edgeMatches a b e = true ↔ sameEdgeKey e (a, b, w) := by
  simp [edgeMatches, sameEdgeKey]

theorem add_edge_weight_nodes (G : Graph) (a b : String) :
    (add_edge_weight G a b).nodes = G.nodes := by
  unfold add_edge_weight
  split <;> rfl

theorem sameEdgeKey_bump (a b : String) (e f : String × String × Nat) :
    sameEdgeKey (if edgeMatches a b e then (e.1, e.2.1, e.2.2 + 1) else e)
      (if edgeMatches a b f then (f.1, f.2.1, f.2.2 + 1) else f) ↔ sameEdgeKey e f := by
  unfold sameEdgeKey
  split <;> split <;> simp

theorem add_edge_weight_wf (G : Graph) (a b : String) (ha : a ∈ G.nodes) (hb : b ∈ G.nodes)
    (h : GraphWF G) : GraphWF (add_edge_weight G a b) := by
  obtain ⟨h1, h2, h3, h4⟩ := h
  unfold add_edge_weight
  split
  case isTrue =>
    refine ⟨h1, ?_, ?_, ?_⟩
    · intro e he
      obtain ⟨f, hf, rfl⟩ := List.mem_map.mp he
      have hef := h2 f hf
      split <;> simpa using hef
    · intro e he
      obtain ⟨f, hf, rfl⟩ := List.mem_map.mp he
      have hef := h3 f hf
      split
      · simp only
        omega
      · exact hef
    · rw [List.pairwise_map]
      refine h4.imp_of_mem ?_
      intro e f _ _ hk hkey
      exact hk ((sameEdgeKey_bump a b e f).mp hkey)
  case isFalse hne =>
    have hall : ∀ e ∈ G.edges, ¬ edgeMatches a b e = true := by
      intro e he hm
      exact hne (by unfold has_edge; rw [List.any_eq_true]; exact ⟨e, he, hm⟩)
    refine ⟨h1, ?_, ?_, ?_⟩
    · intro e he
      rcases List.mem_append.mp he with hE | hE
      · exact h2 e hE
      · simp only [List.mem_singleton] at hE
        subst hE
        exact ⟨ha, hb⟩
    · intro e he
      rcases List.mem_append.mp he with hE | hE
      · exact h3 e hE
      · simp only [List.mem_singleton] at hE
        subst hE
        simp
    · rw [List.pairwise_append]
      refine ⟨h4, by simp, ?_⟩
      intro e hE f hF
      simp only [List.mem_singleton] at hF
      subst hF
      intro hkey
      exact hall e hE ((edgeMatches_iff a b e 1).mpr hkey)

theorem process_row_wf (G : Graph) (author_list : List String) (h : GraphWF G) :
    GraphWF (process_row G author_list) := by
  have hG1 : GraphWF ((author_list.take 5).foldl add_node G) :=
    foldl_add_node_wf (author_list.take 5) G h
  unfold process_row
  split
  · have hmem : ∀ x ∈ author_list.take 5, x ∈ ((author_list.take 5).foldl add_node G).nodes :=
      fun x hx => foldl_add_node_mem (author_list.take 5) G x hx
    have hinv := foldl_invariant
      (fun g : Graph => GraphWF g ∧ g.nodes = ((author_list.take 5).foldl add_node G).nodes)
      (fun g p => add_edge_weight g p.1 p.2) (pairsOf (author_list.take 5)) _
      ⟨hG1, rfl⟩ ?_
    · exact hinv.1
    · intro p hp g hg
      obtain ⟨hwf, hnodes⟩ := hg
      obtain ⟨hp1, hp2⟩ := pairsOf_mem (author_list.take 5) p hp
      refine ⟨add_edge_weight_wf g p.1 p.2 ?_ ?_ hwf, ?_⟩
      · rw [hnodes]
        exact hmem p.1 hp1
      · rw [hnodes]
        exact hmem p.2 hp2
      · rw [add_edge_weight_nodes]
        exact hnodes
  · exact hG1

theorem build_graph_wf (rows : List (List String)) : GraphWF (build_graph rows) := by
  unfold build_graph
  exact foldl_invariant GraphWF process_row rows emptyGraph graphWF_empty
    (fun r _ g hg => process_row_wf g r hg)

theorem prune_isolates_wf (G : Graph) (h : GraphWF G) : GraphWF (prune_isolates G) := by
  obtain ⟨h1, h2, h3, h4⟩ := h
  refine ⟨h1.filter _, ?_, h3, h4⟩
  intro e he
  obtain ⟨he1, he2⟩ := h2 e he
  have hinc1 : isolatedNode G e.1 = false := by
    rw [isolatedNode, List.all_eq_false]
    exact ⟨e, he, by simp⟩
  have hinc2 : isolatedNode G e.2.1 = false := by
    rw [isolatedNode, List.all_eq_false]
    exact ⟨e, he, by simp⟩
  constructor
  · simp only [prune_isolates, List.mem_filter]
    exact ⟨he1, by simp [hinc1]⟩
  · simp only [prune_isolates, List.mem_filter]
    exact ⟨he2, by simp [hinc2]⟩

/-! ## The degree-centrality bound -/

theorem sum_map_ite_one {α : Type} (l : List α) (p : α → Bool) :
    (l.map (fun x => if p x then (1 : Nat) else 0)).sum = (l.filter p).length := by
  induction l with
  | nil => rfl
  | cons a l ih =>
    by_cases h : p a
    · rw [List.map_cons, List.sum_cons, if_pos h, List.filter_cons_of_pos h,
        List.length_cons, ih]
      omega
    · rw [List.map_cons, List.sum_cons, if_neg h, List.filter_cons_of_neg (by simpa using h), ih]
      omega

theorem node_degree_eq (G : Graph) (v : String) (h : NoSelfLoops G) :
    node_degree G v = (G.edges.filter (fun e => e.1 == v || e.2.1 == v)).length := by
  unfold node_degree
  rw [← sum_map_ite_one G.edges (fun e => e.1 == v || e.2.1 == v)]
  apply congrArg List.sum
  apply List.map_congr_left
  intro e he
  have hne : e.1 ≠ e.2.1 := h e he
  by_cases h1 : e.1 = v
  · by_cases h2 : e.2.1 = v
    · exact absurd (h1.trans h2.symm) hne
    · simp [h1, h2]
  · by_cases h2 : e.2.1 = v
    · simp [h1, h2]
    · simp [h1, h2]

theorem otherEnd_ne (v : String) (e : String × String × Nat)
    (_hinc : (e.1 == v || e.2.1 == v) = true) (hself : e.1 ≠ e.2.1) :
    otherEnd v e ≠ v := by
  unfold otherEnd
  split
  case isTrue h =>
    have h1 : e.1 = v := by simpa using h
    intro hc
    exact hself (by rw [h1, hc])
  case isFalse h =>
    have h1 : ¬ e.1 = v := by simpa using h
    exact h1

theorem otherEnd_inj (v : String) (e f : String × String × Nat)
    (hie : (e.1 == v || e.2.1 == v) = true) (hif : (f.1 == v || f.2.1 == v) = true)
    (hk : ¬ sameEdgeKey e f) : otherEnd v e ≠ otherEnd v f := by
  intro heq
  apply hk
  unfold otherEnd at heq
  unfold sameEdgeKey
  have hev : e.1 = v ∨ e.2.1 = v := by simpa using hie
  have hfv : f.1 = v ∨ f.2.1 = v := by simpa using hif
  by_cases he1 : e.1 = v <;> by_cases hf1 : f.1 = v
  · rw [if_pos (by simpa using he1), if_pos (by simpa using hf1)] at heq
    exact Or.inl ⟨he1.trans hf1.symm, heq⟩
  · rw [if_pos (by simpa using he1), if_neg (by simpa using hf1)] at heq
    have hf2 : f.2.1 = v := hfv.resolve_left hf1
    exact Or.inr ⟨by rw [he1, hf2], heq⟩
  · rw [if_neg (by simpa using he1), if_pos (by simpa using hf1)] at heq
    have he2 : e.2.1 = v := hev.resolve_left he1
    exact Or.inr ⟨heq, by rw [he2, hf1]⟩
  · rw [if_neg (by simpa using he1), if_neg (by simpa using hf1)] at heq
    have he2 : e.2.1 = v := hev.resolve_left he1
    have hf2 : f.2.1 = v := hfv.resolve_left hf1
    exact Or.inl ⟨heq, he2.trans hf2.symm⟩

theorem filter_beq_length (l : List String) (h : l.Nodup) (v : String) (hv : v ∈ l) :
    (l.filter (fun x => x == v)).length = 1 := by
  have hc := List.count_eq_one_of_mem h hv
  rw [← List.countP_eq_length_filter]
  exact hc

theorem filter_bne_length (l : List String) (h : l.Nodup) (v : String) (hv : v ∈ l) :
    (l.filter (fun x => !(x == v))).length = l.length - 1 := by
  have h1 := List.length_eq_length_filter_add (l := l) (fun x => x == v)
  have h2 := filter_beq_length l h v hv
  omega

theorem node_degree_le (G : Graph) (v : String) (hwf : GraphWF G) (hs : NoSelfLoops G)
    (hv : v ∈ G.nodes) : node_degree G v ≤ G.nodes.length - 1 := by
  obtain ⟨h1, h2, _, h4⟩ := hwf
  rw [node_degree_eq G v hs]
  have hmapped : ((G.edges.filter (fun e => e.1 == v || e.2.1 == v)).map (otherEnd v)).Nodup := by
    apply List.pairwise_map.mpr
    refine (h4.filter _).imp_of_mem ?_
    intro e f he hf hk
    exact otherEnd_inj v e f (List.mem_filter.mp he).2 (List.mem_filter.mp hf).2 hk
  have hsub : ((G.edges.filter (fun e => e.1 == v || e.2.1 == v)).map (otherEnd v)) ⊆
      G.nodes.filter (fun x => !(x == v)) := by
    intro x hx
    obtain ⟨e, he, rfl⟩ := List.mem_map.mp hx
    have heE := (List.mem_filter.mp he).1
    have hie := (List.mem_filter.mp he).2
    rw [List.mem_filter]
    constructor
    · unfold otherEnd
      split
      · exact (h2 e heE).2
      · exact (h2 e heE).1
    · simpa using otherEnd_ne v e hie (hs e heE)
  have hle := (List.subperm_of_subset hmapped hsub).length_le
  rw [List.length_map] at hle
  have hlast := filter_bne_length G.nodes h1 v hv
  omega

theorem degree_centrality_bounds (G : Graph) (hwf : GraphWF G) (hs : NoSelfLoops G)
    (hn : 2 ≤ G.nodes.length) :
    ∀ p ∈ degree_centrality G, 0 ≤ p.2 ∧ p.2 ≤ 1 := by
  intro p hp
  unfold degree_centrality at hp
  rw [if_neg (by omega)] at hp
  obtain ⟨v, hv, rfl⟩ := List.mem_map.mp hp
  have hden : (0 : ℚ) < (G.nodes.length : ℚ) - 1 := by
    have : (2 : ℚ) ≤ (G.nodes.length : ℚ) := by exact_mod_cast hn
    linarith
  constructor
  · exact div_nonneg (Nat.cast_nonneg _) (le_of_lt hden)
  · rw [div_le_one hden]
    have hd := node_degree_le G v hwf hs hv
    have : ((G.nodes.length - 1 : Nat) : ℚ) = (G.nodes.length : ℚ) - 1 := by
      have h1 : 1 ≤ G.nodes.length := by omega
      push_cast [h1]
      ring
    rw [← this]
    exact_mod_cast hd

/-! ## The betweenness-centrality bound -/

theorem walkCount_concat (G : Graph) (v : String) :
    ∀ (a : Nat) (s : String) (b : Nat) (t : String), v ∈ G.nodes →
      walkCount G a s v * walkCount G b v t ≤ walkCount G (a + b) s t := by
  intro a
  induction a with
  | zero =>
    intro s b t _
    simp only [walkCount]
    by_cases h : s = v
    · rw [if_pos (by simpa using h), Nat.zero_add, Nat.one_mul, h]
    · rw [if_neg (by simpa using h), Nat.zero_mul]
      exact Nat.zero_le _
  | succ a ih =>
    intro s b t hv
    have hrw : a + 1 + b = (a + b) + 1 := by omega
    rw [hrw]
    simp only [walkCount]
    rw [← List.sum_map_mul_right]
    apply List.sum_le_sum
    intro u _
    by_cases hadj : has_edge G s u = true
    · rw [if_pos hadj, if_pos hadj]
      exact ih u b t hv
    · rw [if_neg hadj, if_neg hadj, Nat.zero_mul]

theorem distUpTo_pos (G : Graph) (a b : String) (d : Nat) (h : distUpTo G a b = some d) :
    0 < walkCount G d a b := by
  unfold distUpTo at h
  have hp := List.find?_some h
  exact of_decide_eq_true hp

theorem pairDep_nonneg (G : Graph) (s t v : String) : 0 ≤ pairDep G s t v := by
  unfold pairDep
  split
  · split
    · exact div_nonneg (Nat.cast_nonneg _) (Nat.cast_nonneg _)
    · exact le_refl 0
  · exact le_refl 0
  · exact le_refl 0
  · exact le_refl 0

theorem pairDep_le_one (G : Graph) (s t v : String) (hv : v ∈ G.nodes) :
    pairDep G s t v ≤ 1 := by
  unfold pairDep
  split
  case h_1 d a b hd ha hb =>
    split
    case isTrue hab =>
      have hpos := distUpTo_pos G s t d hd
      rw [div_le_one (by exact_mod_cast hpos)]
      have hcc := walkCount_concat G v a s b t hv
      rw [hab] at hcc
      exact_mod_cast hcc
    case isFalse => exact zero_le_one
  · exact zero_le_one
  · exact zero_le_one
  · exact zero_le_one

theorem sum_map_ite_zero_const {α : Type} (l : List α) (p : α → Bool) (c : ℚ) :
    (l.map (fun x => if p x then (0 : ℚ) else c)).sum =
      c * ((l.filter (fun x => !p x)).length : ℚ) := by
  induction l with
  | nil => simp
  | cons a l ih =>
    by_cases h : p a
    · rw [List.map_cons, List.sum_cons, if_pos h,
        List.filter_cons_of_neg (by simpa using h), ih]
      ring
    · rw [List.map_cons, List.sum_cons, if_neg h,
        List.filter_cons_of_pos (by simpa using h), List.length_cons, ih]
      push_cast
      ring

theorem filter_two_length : ∀ (l : List String), l.Nodup → ∀ v s : String, v ≠ s →
    v ∈ l → s ∈ l → (l.filter (fun t => t == v || t == s)).length = 2
  | [], _, v, _, _, hv, _ => by simp at hv
  | a :: l, h, v, s, hvs, hv, hs => by
    rw [List.nodup_cons] at h
    obtain ⟨hna, hnd⟩ := h
    rcases List.mem_cons.mp hv with rfl | hvl
    · have hsl : s ∈ l := by
        rcases List.mem_cons.mp hs with rfl | h'
        · exact absurd rfl hvs
        · exact h'
      rw [List.filter_cons_of_pos (by simp), List.length_cons]
      have hcg : l.filter (fun t => t == v || t == s) = l.filter (fun t => t == s) := by
        apply List.filter_congr
        intro x hx
        have hxv : x ≠ v := fun hxv => hna (hxv ▸ hx)
        simp [hxv]
      rw [hcg, filter_beq_length l hnd s hsl]
    · rcases List.mem_cons.mp hs with rfl | hsl
      · rw [List.filter_cons_of_pos (by simp), List.length_cons]
        have hcg : l.filter (fun t => t == v || t == s) = l.filter (fun t => t == v) := by
          apply List.filter_congr
          intro x hx
          have hxs : x ≠ s := fun hxs => hna (hxs ▸ hx)
          simp [hxs]
        rw [hcg, filter_beq_length l hnd v hvl]
      · have hav : a ≠ v := fun h' => hna (h' ▸ hvl)
        have has : a ≠ s := fun h' => hna (h' ▸ hsl)
        rw [List.filter_cons_of_neg (by simp [hav, has])]
        exact filter_two_length l hnd v s hvs hvl hsl

theorem inner_sum_le (G : Graph) (v s : String) (h1 : G.nodes.Nodup)
    (hv : v ∈ G.nodes) (hs : s ∈ G.nodes) (hsv : ¬ s = v) :
    (G.nodes.map (fun t => if t == v || t == s then 0 else pairDep G s t v)).sum ≤
      ((G.nodes.length - 2 : Nat) : ℚ) := by
  have hle : (G.nodes.map (fun t => if t == v || t == s then 0 else pairDep G s t v)).sum ≤
      (G.nodes.map (fun t => if t == v || t == s then (0 : ℚ) else 1)).sum := by
    apply List.sum_le_sum
    intro t _
    by_cases hp : (t == v || t == s) = true
    · rw [if_pos hp, if_pos hp]
    · rw [if_neg hp, if_neg hp]
      exact pairDep_le_one G s t v hv
  have heq := sum_map_ite_zero_const G.nodes (fun t => t == v || t == s) 1
  have hcnt : (G.nodes.filter (fun t => t == v || t == s)).length = 2 :=
    filter_two_length G.nodes h1 v s (fun h => hsv h.symm) hv hs
  have htot := List.length_eq_length_filter_add (l := G.nodes) (fun t => t == v || t == s)
  have hrest : (G.nodes.filter (fun t => !(t == v || t == s))).length =
      G.nodes.length - 2 := by omega
  rw [heq, hrest] at hle
  simpa using hle

theorem betweennessRaw_nonneg (G : Graph) (v : String) : 0 ≤ betweennessRaw G v := by
  unfold betweennessRaw
  apply List.sum_nonneg
  intro x hx
  obtain ⟨s, _, rfl⟩ := List.mem_map.mp hx
  by_cases hp : (s == v) = true
  · rw [if_pos hp]
  · rw [if_neg hp]
    apply List.sum_nonneg
    intro y hy
    obtain ⟨t, _, rfl⟩ := List.mem_map.mp hy
    by_cases hq : (t == v || t == s) = true
    · rw [if_pos hq]
    · rw [if_neg hq]
      exact pairDep_nonneg G s t v

theorem betweennessRaw_le (G : Graph) (v : String) (h1 : G.nodes.Nodup) (hv : v ∈ G.nodes) :
    betweennessRaw G v ≤ (((G.nodes.length - 1) * (G.nodes.length - 2) : Nat) : ℚ) := by
  unfold betweennessRaw
  have hle : (G.nodes.map (fun s =>
      if s == v then 0
      else (G.nodes.map (fun t => if t == v || t == s then 0 else pairDep G s t v)).sum)).sum ≤
      (G.nodes.map (fun s => if s == v then (0 : ℚ)
        else ((G.nodes.length - 2 : Nat) : ℚ))).sum := by
    apply List.sum_le_sum
    intro s hsm
    by_cases hp : (s == v) = true
    · rw [if_pos hp, if_pos hp]
    · rw [if_neg hp, if_neg hp]
      exact inner_sum_le G v s h1 hv hsm (by simpa using hp)
  have heq := sum_map_ite_zero_const G.nodes (fun s => s == v) ((G.nodes.length - 2 : Nat) : ℚ)
  rw [heq, filter_bne_length G.nodes h1 v hv] at hle
  have hfin : ((G.nodes.length - 2 : Nat) : ℚ) * ((G.nodes.length - 1 : Nat) : ℚ) =
      (((G.nodes.length - 1) * (G.nodes.length - 2) : Nat) : ℚ) := by
    push_cast
    ring
  rw [hfin] at hle
  exact hle

theorem betweenness_centrality_bounds (G : Graph) (hwf : GraphWF G)
    (hn : 2 ≤ G.nodes.length) :
    ∀ p ∈ betweenness_centrality G, 0 ≤ p.2 ∧ p.2 ≤ 1 := by
  intro p hp
  unfold betweenness_centrality at hp
  by_cases h2 : G.nodes.length ≤ 2
  · rw [if_pos h2] at hp
    obtain ⟨v, hv, rfl⟩ := List.mem_map.mp hp
    have hub := betweennessRaw_le G v hwf.1 hv
    have heq0 : ((G.nodes.length - 1) * (G.nodes.length - 2)) = 0 := by
      have hz : G.nodes.length - 2 = 0 := by omega
      rw [hz, Nat.mul_zero]
    rw [heq0] at hub
    have hlb := betweennessRaw_nonneg G v
    refine ⟨hlb, ?_⟩
    have : betweennessRaw G v ≤ 0 := by simpa using hub
    simp only
    linarith
  · rw [if_neg h2] at hp
    obtain ⟨v, hv, rfl⟩ := List.mem_map.mp hp
    have hposn : 1 ≤ (G.nodes.length - 1) * (G.nodes.length - 2) := by
      have ha : 1 ≤ G.nodes.length - 1 := by omega
      have hb : 1 ≤ G.nodes.length - 2 := by omega
      simpa using Nat.mul_le_mul ha hb
    have hpos : (0 : ℚ) < (((G.nodes.length - 1) * (G.nodes.length - 2) : Nat) : ℚ) := by
      exact_mod_cast Nat.lt_of_lt_of_le Nat.zero_lt_one hposn
    refine ⟨div_nonneg (betweennessRaw_nonneg G v) (le_of_lt hpos), ?_⟩
    simp only
    rw [div_le_one hpos]
    exact betweennessRaw_le G v hwf.1 hv

/-! ## The top-5 selection -/

theorem top5_mem (l : List (String × ℚ)) (p : String × ℚ) (hp : p ∈ top5 l) : p ∈ l := by
  unfold top5 at hp
  have hsub := List.take_sublist 5 (sortBy (fun a b => decide (b.2 ≤ a.2)) l)
  exact (sortBy_perm (fun a b : String × ℚ => decide (b.2 ≤ a.2)) l).subset (hsub.subset hp)

theorem top5_sorted (l : List (String × ℚ)) : sortedDescBy2 (top5 l) := by
  unfold sortedDescBy2 top5
  have h := sortBy_pairwise (fun a b : String × ℚ => decide (b.2 ≤ a.2))
    (fun x y => by
      rcases le_total y.2 x.2 with h | h
      · exact Or.inl (decide_eq_true h)
      · exact Or.inr (decide_eq_true h))
    (fun x y z hxy hyz =>
      decide_eq_true (le_trans (of_decide_eq_true hyz) (of_decide_eq_true hxy)))
    l
  exact (h.imp fun hd => of_decide_eq_true hd).sublist (List.take_sublist 5 _)

theorem top5_length (l : List (String × ℚ)) : (top5 l).length ≤ 5 :=
  List.length_take_le _ _

/-- Claim C8 (amended): centrality reporting over the pruned co-authorship
graph: below two remaining nodes both lists are empty; both lists have at
most five entries sorted descending by score; betweenness scores always
lie in `[0, 1]`; degree scores lie in `[0, 1]` whenever no record repeats
an author name among its first five authors (with a repeated name the
degree score can exceed 1, see the counterexample). -/
theorem C8_centrality_scores (rows : List (List String)) :
    ((prune_isolates (build_graph rows)).nodes.length < 2 →
      calculate_author_centrality rows = ([], [])) ∧
    (calculate_author_centrality rows).1.length ≤ 5 ∧
    (calculate_author_centrality rows).2.length ≤ 5 ∧
    sortedDescBy2 (calculate_author_centrality rows).1 ∧
    sortedDescBy2 (calculate_author_centrality rows).2 ∧
    (∀ p ∈ (calculate_author_centrality rows).2, 0 ≤ p.2 ∧ p.2 ≤ 1) ∧
    ((∀ r ∈ rows, (r.take 5).Nodup) →
      ∀ p ∈ (calculate_author_centrality rows).1, 0 ≤ p.2 ∧ p.2 ≤ 1) := by
  have hwf : GraphWF (prune_isolates (build_graph rows)) :=
    prune_isolates_wf (build_graph rows) (build_graph_wf rows)
  by_cases hn : (prune_isolates (build_graph rows)).nodes.length < 2
  · have hz : calculate_author_centrality rows = ([], []) := by
      unfold calculate_author_centrality
      rw [if_pos hn]
    refine ⟨fun _ => hz, ?_, ?_, ?_, ?_, ?_, ?_⟩ <;> rw [hz]
    · simp
    · simp
    · exact List.Pairwise.nil
    · exact List.Pairwise.nil
    · intro p hp
      simp at hp
    · intro _ p hp
      simp at hp
  · have hc : calculate_author_centrality rows =
        (top5 (degree_centrality (prune_isolates (build_graph rows))),
          top5 (betweenness_centrality (prune_isolates (build_graph rows)))) := by
      unfold calculate_author_centrality
      rw [if_neg hn]
    have h2 : 2 ≤ (prune_isolates (build_graph rows)).nodes.length := by omega
    refine ⟨fun hcontra => absurd hcontra hn, ?_, ?_, ?_, ?_, ?_, ?_⟩ <;> rw [hc]
    · exact top5_length _
    · exact top5_length _
    · exact top5_sorted _
    · exact top5_sorted _
    · intro p hp
      exact betweenness_centrality_bounds (prune_isolates (build_graph rows)) hwf h2
        p (top5_mem _ p hp)
    · intro hdup p hp
      have hsl : NoSelfLoops (prune_isolates (build_graph rows)) :=
        build_graph_no_selfloops rows hdup
      exact degree_centrality_bounds (prune_isolates (build_graph rows)) hwf hsl h2
        p (top5_mem _ p hp)

/-- Claim C8 as stated is false: with a record repeating an author name,
the networkx degree centrality (self-loops count twice) produces the score
3 for a two-node graph. -/
theorem C8_counterexample :
    ("A", (3 : ℚ)) ∈ (calculate_author_centrality [["A", "A", "B"]]).1 ∧
    ¬ ((3 : ℚ) ≤ 1) := by
  have hg : prune_isolates (build_graph [["A", "A", "B"]]) =
      { nodes := ["A", "B"], edges := [("A", "A", 1), ("A", "B", 2)] } := by decide
  have hda : node_degree { nodes := ["A", "B"], edges := [("A", "A", 1), ("A", "B", 2)] } "A"
      = 3 := by decide
  have hdb : node_degree { nodes := ["A", "B"], edges := [("A", "A", 1), ("A", "B", 2)] } "B"
      = 1 := by decide
  have hdc : degree_centrality { nodes := ["A", "B"], edges := [("A", "A", 1), ("A", "B", 2)] }
      = [("A", 3), ("B", 1)] := by
    unfold degree_centrality
    rw [if_neg (by decide)]
    simp only [List.map_cons, List.map_nil, hda, hdb]
    norm_num
  have hcalc : (calculate_author_centrality [["A", "A", "B"]]).1 = [("A", 3), ("B", 1)] := by
    unfold calculate_author_centrality
    rw [if_neg (by decide)]
    simp only
    rw [hg, hdc]
    norm_num [top5, sortBy, insertBy, decide_eq_true_eq]
  refine ⟨?_, by norm_num⟩
  rw [hcalc]
  simp

theorem C8_witness :
    ((prune_isolates (build_graph [["A"]])).nodes.length < 2 ∧
      calculate_author_centrality [["A"]] = ([], [])) ∧
    ((∀ r ∈ [["A", "B"]], (r.take 5).Nodup) ∧
      ∀ p ∈ (calculate_author_centrality [["A", "B"]]).1, 0 ≤ p.2 ∧ p.2 ≤ 1) :=
  ⟨⟨by decide, (C8_centrality_scores [["A"]]).1 (by decide)⟩,
    ⟨by decide, (C8_centrality_scores [["A", "B"]]).2.2.2.2.2.2 (by decide)⟩⟩

theorem C10_witness :
    ((∀ w ∈ [wfWork], authorsWF w) ∧ wfWork.title = Field.absent) ∧
    (∃ rows, process_results [wfWork] = Except.ok rows ∧ rows.length = [wfWork].length ∧
      List.Forall₂ (fun w r => processWork w = Except.ok r) [wfWork] rows) ∧
    (∃ r, processWork wfWork = Except.ok r ∧ r.title = some "") := by
  have hwf : authorsWF wfWork := ⟨by decide, by intro lst h; cases h⟩
  refine ⟨⟨?_, rfl⟩, ?_, ?_⟩
  · intro w hw
    rcases List.mem_singleton.mp hw with rfl
    exact hwf
  · exact C10_normalization_defaults.1 [wfWork]
      (fun w hw => by rcases List.mem_singleton.mp hw with rfl; exact hwf)
  · obtain ⟨r, hok, ht, _⟩ := C10_normalization_defaults.2 wfWork hwf
    exact ⟨r, hok, ht rfl⟩

end SLR
